import Mathlib

/-!
# Verification of the Stock-Calculator backend market-data layer

Shallow embedding of the resilient market-data retrieval layer of
`src/Backend/index.js` (together with the Yahoo direct-fetch fallback
module): the cache store with class-dependent TTLs, the circuit
breaker, the ticker-variant resolver, the provider fallback chains for
quotes, history and dividends, the USD-hub FX resolver, and the
dividend enrichment pipeline.

Conventions of the embedding:
* JS strings are lists of characters (`Str`); the handful of string
  operations the backend uses (`trim`, `toUpperCase`, `includes`,
  `startsWith`, concatenation) are implemented structurally so that
  they evaluate inside the kernel;
* timestamps are naturals counting milliseconds (JS `Date.now()`);
* JS numbers carrying prices/rates are rationals (`ℚ`); `NaN` and
  other non-finite values are modelled by `Option` (`none` = not a
  finite number), matching the source's `Number.isFinite` guards;
* JS truthiness tests on numbers (`if (x)`) are modelled explicitly:
  `0` is falsy;
* fallible upstream calls are oracle functions returning `Option`
  values; a network or parse failure is `none`.
-/

namespace StockCalc

/-! ## Section 0: JS string model -/

/-- A JS string, as its character sequence. -/
abbrev Str : Type := List Char

/-- Whitespace recognised by the embedding of JS `String.prototype.trim`
(the ASCII whitespace actually occurring around ticker input). -/
def isSpaceChar (c : Char) : Bool :=
  c == ' ' || c == '\t' || c == '\n' || c == '\r'

/-- Drop leading whitespace. -/
def dropLeadingSpace : Str → Str
  | [] => []
  | c :: cs => if isSpaceChar c then dropLeadingSpace cs else c :: cs

/-- JS `s.trim()`: strip whitespace from both ends. -/
def jsTrim (s : Str) : Str :=
  dropLeadingSpace ((dropLeadingSpace s.reverse).reverse)

/-- JS `s.toUpperCase()` on ASCII sym inputs. -/
def toUpperStr (s : Str) : Str := s.map Char.toUpper

/-- JS `s.startsWith(p)`: the first argument is the pattern. -/
def startsWithStr : Str → Str → Bool
  | [], _ => true
  | _ :: _, [] => false
  | p :: ps, c :: cs => p == c && startsWithStr ps cs

/-- Character-list spellings of the string literals the backend uses. -/
def sUSD : Str := "USD".data

/-- The string `"THB"`. -/
def sTHB : Str := "THB".data

/-- The string `"=X"` — suffix of Yahoo forex pair symbols. -/
def sEqX : Str := "=X".data

/-- The string `"fx_"` — key class of forex cache entries. -/
def sFxPrefix : Str := "fx_".data

/-- The string `".BK"` — default SET market suffix. -/
def sBK : Str := ".BK".data

/-! ## Section 1: configuration constants (`index.js` lines 33-37) -/

/-- Constant `CACHE_TTL = 60 * 60 * 1000` — 1 hour, for general data. -/
def CACHE_TTL : ℕ := 60 * 60 * 1000

/-- Constant `FX_CACHE_TTL = 15 * 60 * 1000` — 15 minutes, forex. -/
def FX_CACHE_TTL : ℕ := 15 * 60 * 1000

/-- Constant `BLOCK_DURATION = 1 * 1000` — breaker cool-down (ms). -/
def BLOCK_DURATION : ℕ := 1 * 1000

/-- Constant `MS_PER_DAY = 24 * 60 * 60 * 1000`. -/
def MS_PER_DAY : ℕ := 24 * 60 * 60 * 1000

/-! ## Section 2: cache store (`cacheManager`, `index.js` lines 45-98)

The in-memory `Map` is a function from keys to optional entries; the
on-disk snapshot is a mirror whose write errors are swallowed
(`save()`, lines 64-73) and which never affects in-memory reads, so it
is not modelled. -/

/-- One cache entry, `{ data, timestamp }`, as stored by `set`. -/
structure CacheEntry (α : Type) where
  data : α
  timestamp : ℕ
  deriving Repr, DecidableEq

/-- The in-memory cache `Map`. -/
def CacheMap (α : Type) : Type := Str → Option (CacheEntry α)

/-- The empty cache. -/
def CacheMap.empty (α : Type) : CacheMap α := fun _ => none

/-- TTL selection by key class (line 80):
`key.startsWith('fx_') ? FX_CACHE_TTL : CACHE_TTL`. -/
def ttlFor (key : Str) : ℕ :=
  if startsWithStr sFxPrefix key then FX_CACHE_TTL else CACHE_TTL

/-- Function `cacheManager.set(key, data)` (lines 94-97): always
overwrites, stamping the entry with the current time. -/
def cacheSet {α : Type} (now : ℕ) (c : CacheMap α) (key : Str) (v : α) :
    CacheMap α :=
  fun k => if k = key then some ⟨v, now⟩ else c k

/-- Removal of a key (`this.cache.delete(key)`, line 89). -/
def cacheDelete {α : Type} (c : CacheMap α) (key : Str) : CacheMap α :=
  fun k => if k = key then none else c k

/-- Function `cacheManager.get(key)` (lines 75-92).  Returns the hit
value (or `none`) together with the possibly-updated map: a stale or
zero-timestamp entry is deleted.  The JS guard is
`cached.timestamp && (Date.now() - cached.timestamp < ttl)`; its first
conjunct is numeric truthiness (a zero timestamp fails it) and the age
comparison is over signed numbers, hence the `Int` subtraction. -/
def cacheGet {α : Type} (now : ℕ) (c : CacheMap α) (key : Str) :
    Option α × CacheMap α :=
  match c key with
  | none => (none, c)
  | some e =>
    if e.timestamp ≠ 0 ∧ (now : ℤ) - (e.timestamp : ℤ) < (ttlFor key : ℤ) then
      (some e.data, c)
    else
      (none, cacheDelete c key)

/-! ## Section 3: circuit breaker (`circuitBreaker`, lines 103-130)

The object is defined in the source but — after the removal of the
global middleware (comment at line 536) — neither `trip()` nor
`check()` is invoked anywhere in the repository. -/

/-- Breaker state, `{ isBlocked, blockUntil }`. -/
structure BreakerState where
  isBlocked : Bool
  blockUntil : ℕ
  deriving Repr, DecidableEq

/-- Initial breaker state (lines 104-105). -/
def BreakerState.init : BreakerState := ⟨false, 0⟩

/-- Function `circuitBreaker.trip()` (lines 107-112). -/
def breakerTrip (now : ℕ) (_s : BreakerState) : BreakerState :=
  ⟨true, now + BLOCK_DURATION⟩

/-- JS `Math.ceil(x / 1000)` on a natural millisecond count. -/
def ceilDiv1000 (x : ℕ) : ℕ := (x + 999) / 1000

/-- Function `circuitBreaker.check(res)` (lines 114-129).  Returns
`(some remainingSecs, s)` when the request is rejected (a 503 carrying
`remainingSecs` is sent) and `(none, s2)` when the request may
proceed; in the latter case a tripped-but-elapsed breaker resets to
`⟨false, 0⟩`. -/
def breakerCheck (now : ℕ) (s : BreakerState) : Option ℕ × BreakerState :=
  if s.isBlocked then
    if now < s.blockUntil then
      (some (ceilDiv1000 (s.blockUntil - now)), s)
    else
      (none, ⟨false, 0⟩)
  else
    (none, s)

/-! ## Section 4: ticker resolver (lines 136-142) -/

/-- Function `normalizeTicker = (ticker) => ticker.trim().toUpperCase()`. -/
def normalizeTicker (ticker : Str) : Str := toUpperStr (jsTrim ticker)

/-- Function `buildTickerVariants` (lines 138-142): sole candidate when
the normalized symbol already carries a `.` market qualifier,
otherwise the exact symbol followed by its `.BK` (SET) variant. -/
def buildTickerVariants (raw : Str) : List Str :=
  let t := normalizeTicker raw
  if t.contains '.' then [t] else [t, t ++ sBK]

/-! ## Section 5: normalized history series

`toDateOnly`/`toDateObject` (lines 144-198) normalize a date to
day granularity in UTC; on an epoch-millisecond input this is flooring
to the containing UTC day, which the embedding represents as the day
index since the epoch. -/

/-- Day-granularity normalization of an epoch-millisecond timestamp
(`toDateObject`, line 194). -/
def msToDay (ms : ℕ) : ℕ := ms / MS_PER_DAY

/-- A row of `result.quotes` as consumed by `parseQuoteSeries`
(lines 200-215): `row?.date ?? row?.timestamp` (an epoch-ms instant,
`none` when both fields are absent or unparseable), the close when it
is a number, and the volume when it is a number. -/
structure RawQuoteRow where
  date : Option ℕ
  close : Option ℚ
  volume : Option ℚ
  deriving Repr, DecidableEq

/-- A normalized series point produced by `parseQuoteSeries`:
`date`/`iso` collapse to the day index, close and optional volume. -/
structure SeriesPoint where
  day : ℕ
  close : ℚ
  volume : Option ℚ
  deriving Repr, DecidableEq

/-- Function `parseQuoteSeries` (lines 200-215): keep rows with a
parseable date and numeric close, normalize the date to day
granularity, and stable-sort ascending by date
(`.sort((a, b) => a.date - b.date)`; JS `Array.prototype.sort` is
stable, modelled by the stable insertion sort). -/
def parseQuoteSeries (rows : List RawQuoteRow) : List SeriesPoint :=
  List.insertionSort (fun a b => a.day ≤ b.day)
    (rows.filterMap fun row =>
      match row.date, row.close with
      | some ms, some c => some ⟨msToDay ms, c, row.volume⟩
      | _, _ => none)

/-- One element of `data.values` in `fetchTwelveDataHistory`
(lines 329-333): `new Date(item.datetime)` as epoch ms and the numeric
close and volume. -/
structure TwelveDataItem where
  datetimeMs : ℕ
  close : ℚ
  volume : ℚ
  deriving Repr, DecidableEq

/-- A history point of the Twelve Data provider path. -/
structure TDPoint where
  dateMs : ℕ
  close : ℚ
  volume : ℚ
  deriving Repr, DecidableEq

/-- The mapping step of `fetchTwelveDataHistory` (lines 329-333): map
each value to `{date, close, volume}` and stable-sort ascending by
date (`.sort((a, b) => new Date(a.date) - new Date(b.date))`). -/
def twelveDataHistory (values : List TwelveDataItem) : List TDPoint :=
  List.insertionSort (fun a b => a.dateMs ≤ b.dateMs)
    (values.map fun item => ⟨item.datetimeMs, item.close, item.volume⟩)

/-- The raw Yahoo chart payload consumed by `fetchYahooDirect`
(`yahooDirect.js`, `src/unnamed/part_000`, lines 33-55): the timestamp
array (epoch seconds) and the parallel close/volume arrays
(`indicators.quote[0]`), `none` marking a null slot. -/
structure YahooDirectRaw where
  timestamps : List ℕ
  closes : List (Option ℚ)
  volumes : List (Option ℚ)
  deriving Repr, DecidableEq

/-- A history point of the Yahoo direct-fetch path. -/
structure DirectPoint where
  dateMs : ℕ
  close : ℚ
  volume : ℚ
  deriving Repr, DecidableEq

/-- Worker for `fetchYahooDirect`: walk the timestamps with their index
`i`, keep the rows whose `quotes.close?.[i] || null` is not null (a
missing or zero close is dropped by that truthiness test), take
`quotes.volume?.[i] || 0`, and leave the upstream order untouched —
the source performs no sort here. -/
def yahooDirectGo (closes volumes : List (Option ℚ)) :
    List ℕ → ℕ → List DirectPoint
  | [], _ => []
  | ts :: rest, i =>
    match (closes.get? i).bind id with
    | some c =>
      if c = 0 then yahooDirectGo closes volumes rest (i + 1)
      else
        ⟨ts * 1000, c, ((volumes.get? i).bind id).getD 0⟩ ::
          yahooDirectGo closes volumes rest (i + 1)
    | none => yahooDirectGo closes volumes rest (i + 1)

/-- Function `fetchYahooDirect` (`src/unnamed/part_000`, lines 41-49):
the produced history list. -/
def yahooDirectHistory (r : YahooDirectRaw) : List DirectPoint :=
  yahooDirectGo r.closes r.volumes r.timestamps 0

/-! ## Section 6: provider fallback chains (quote and history)

`getStockQuote` (lines 560-620) and `getStockHistory` (lines 622-713)
loop over the ticker variants (outer) and inside each iteration try
Yahoo first and — because a Yahoo failure always records `lastError`
before the Twelve Data block is reached — Twelve Data second
(`getStockHistory` additionally tries the Yahoo direct fetch between
the two, inside the Yahoo catch).  The traces below record, for a
given per-candidate success pattern, the `(variant, provider)`
attempts actually made in order, with no cache hits and no
`forceProvider` override. -/

/-- The upstream providers of the quote/history chains. -/
inductive Provider where
  | yahoo
  | yahooDirect
  | twelveData
  deriving Repr, DecidableEq

/-- Attempt trace of `getStockQuote` (lines 567-614): per variant,
Yahoo then Twelve Data; the loop returns on the first success. -/
def quoteAttempts (succeeds : Str → Provider → Bool) :
    List Str → List (Str × Provider)
  | [] => []
  | s :: rest =>
    if succeeds s .yahoo then [(s, .yahoo)]
    else if succeeds s .twelveData then [(s, .yahoo), (s, .twelveData)]
    else (s, .yahoo) :: (s, .twelveData) :: quoteAttempts succeeds rest

/-- Attempt trace of `getStockHistory` (lines 638-707): per variant,
Yahoo, then the Yahoo direct fetch (inside the catch), then Twelve
Data; the loop returns on the first success. -/
def historyAttempts (succeeds : Str → Provider → Bool) :
    List Str → List (Str × Provider)
  | [] => []
  | s :: rest =>
    if succeeds s .yahoo then [(s, .yahoo)]
    else if succeeds s .yahooDirect then [(s, .yahoo), (s, .yahooDirect)]
    else if succeeds s .twelveData then
      [(s, .yahoo), (s, .yahooDirect), (s, .twelveData)]
    else
      (s, .yahoo) :: (s, .yahooDirect) :: (s, .twelveData) ::
        historyAttempts succeeds rest

/-! ## Section 7: dividend chain error dispatch

`getDividendHistory` (lines 715-919) loops over the variants; its
catch block (lines 898-912) classifies the per-symbol outcome.  The
source states in so many words that the rate-limit signature (a
`SyntaxError` whose message carries `Unexpected token`, i.e. Yahoo
answered HTML where JSON was expected) is only recorded as
`lastError = 'Yahoo API Rate Limit (HTML response)'` before the loop
continues with the next symbol — the circuit breaker is deliberately
not tripped there, and no other line of the repository calls
`circuitBreaker.trip()` or `circuitBreaker.check()`. -/

/-- Per-symbol outcome of the dividend fetch-and-process body. -/
inductive DividendOutcome (P : Type) where
  | success (payload : P)
  | rateLimitHtml
  | notFound
  | noData
  | otherError
  deriving Repr, DecidableEq

/-- The `lastError` classes distinguished by the handler. -/
inductive LastError where
  | noneYet
  | rateLimited
  | notFound
  | noDividendData
  | other
  deriving Repr, DecidableEq

/-- Result of walking the dividend candidate chain: the payload of the
first success (if any), the breaker state after the walk, the final
`lastError` classification, and how many candidates were attempted. -/
structure ChainResult (P : Type) where
  payload : Option P
  breaker : BreakerState
  lastError : LastError
  attempts : ℕ
  deriving Repr, DecidableEq

/-- The candidate loop of `getDividendHistory` over per-symbol
outcomes: a success returns at once; every failure class — including
the rate-limit signature — updates `lastError` and continues with the
next candidate; the breaker state is passed through untouched, since
the handler never invokes the breaker. -/
def dividendChain {P : Type} (b : BreakerState) (err : LastError)
    (outcomes : List (DividendOutcome P)) : ChainResult P :=
  match outcomes with
  | [] => ⟨none, b, err, 0⟩
  | .success p :: _ => ⟨some p, b, err, 1⟩
  | .rateLimitHtml :: rest =>
    let r := dividendChain b .rateLimited rest
    ⟨r.payload, r.breaker, r.lastError, r.attempts + 1⟩
  | .notFound :: rest =>
    let r := dividendChain b .notFound rest
    ⟨r.payload, r.breaker, r.lastError, r.attempts + 1⟩
  | .noData :: rest =>
    let r := dividendChain b .noDividendData rest
    ⟨r.payload, r.breaker, r.lastError, r.attempts + 1⟩
  | .otherError :: rest =>
    let r := dividendChain b .other rest
    ⟨r.payload, r.breaker, r.lastError, r.attempts + 1⟩

/-! ## Section 8: FX resolver (lines 348-417) -/

/-- Upstream behaviour seen by `fetchForexRate` for a pair symbol:
`yahooQuote p = none` models the library call throwing,
`some none` a response whose `regularMarketPrice` is not a finite
number, and `some (some v)` a finite price `v`; `direct` is the
`meta.regularMarketPrice` of the raw direct fetch (`none` = the
fallback failed or carried no finite price). -/
structure FxUpstream where
  yahooQuote : Str → Option (Option ℚ)
  direct : Str → Option ℚ

/-- Function `fetchForexRate(pairSymbol)` (lines 348-382): serve from
the `fx_`-prefixed cache when possible; otherwise ask the Yahoo
library and accept only a finite price `> 0`, caching it; when the
library throws, fall back to the direct fetch under the same
acceptance test; otherwise yield `null`.  When the library returns a
non-finite or non-positive price, control reaches `return null`
without attempting the direct fallback (no exception was thrown). -/
def fetchForexRate (now : ℕ) (u : FxUpstream) (c : CacheMap ℚ)
    (pairSymbol : Str) : Option ℚ × CacheMap ℚ :=
  match cacheGet now c (sFxPrefix ++ pairSymbol) with
  | (some v, c1) => (some v, c1)
  | (none, c1) =>
    match u.yahooQuote pairSymbol with
    | some (some p) =>
      if 0 < p then (some p, cacheSet now c1 (sFxPrefix ++ pairSymbol) p)
      else (none, c1)
    | some none => (none, c1)
    | none =>
      match u.direct pairSymbol with
      | some p =>
        if 0 < p then (some p, cacheSet now c1 (sFxPrefix ++ pairSymbol) p)
        else (none, c1)
      | none => (none, c1)

/-- The `Target -> USD` step (lines 398-402): the reciprocal of the
USD-base pair rate, guarded by JS truthiness
(`return rate ? 1 / rate : null`). -/
def fxReciprocal : Option ℚ × CacheMap ℚ → Option ℚ × CacheMap ℚ
  | (some r, c) => (if r = 0 then none else some (1 / r), c)
  | (none, c) => (none, c)

/-- Function `getFxRate(fromCurrency, toCurrency)` (lines 384-417).
The guards mirror the source in order: falsy (empty) currency, equal
currencies, USD source, USD target, and the cross-rate composition
through the USD hub.  In the last case the source recurses into
`getFxRate(from, 'USD')` and `getFxRate('USD', to)`; because both
currencies are then known to be non-empty and distinct from `'USD'`,
those inner calls resolve in one step to the two USD branches, which
are unfolded here.  The composed cross rate is written to the cache
under the concatenated pair key (line 412). -/
def getFxRate (now : ℕ) (u : FxUpstream) (c : CacheMap ℚ)
    (fromC toC : Str) : Option ℚ × CacheMap ℚ :=
  if fromC = [] ∨ toC = [] then (none, c)
  else if fromC = toC then (some 1, c)
  else if fromC = sUSD then fetchForexRate now u c (toC ++ sEqX)
  else if toC = sUSD then fxReciprocal (fetchForexRate now u c (fromC ++ sEqX))
  else
    let leg1 := fxReciprocal (fetchForexRate now u c (fromC ++ sEqX))
    let leg2 := fetchForexRate now u leg1.2 (toC ++ sEqX)
    match leg1.1, leg2.1 with
    | some a, some b =>
      if a ≠ 0 ∧ b ≠ 0 then
        (some (a * b),
         cacheSet now leg2.2 (sFxPrefix ++ (fromC ++ toC)) (a * b))
      else (none, leg2.2)
    | _, _ => (none, leg2.2)

/-- Invariant: every value stored in a (forex) cache is strictly
positive. -/
def CachePos (c : CacheMap ℚ) : Prop :=
  ∀ k e, c k = some e → 0 < e.data

/-! ## Section 9: dividend currency enrichment (lines 419-500)

Only the per-event conversion step of `enrichCurrency` is needed by
the claims; `matrix` stands for the pre-computed `conversionMatrix`
and `usdThb` for the pre-fetched `usdThbRate`. -/

/-- One `conversionMatrix` slot: `{ toUsd, toThb }` (either leg may
have failed to resolve). -/
structure ConvRates where
  toUsd : Option ℚ
  toThb : Option ℚ
  deriving Repr, DecidableEq

/-- A processed dividend event as it enters `enrichCurrency`: its
currency code (when known), the validated per-share amount, and the
located at-event close (each `none` when not a finite number). -/
structure RawEvent where
  currency : Option Str
  amountPerShare : Option ℚ
  priceAtEvent : Option ℚ

/-- The converted fields attached to an event by `enrichCurrency`. -/
structure EnrichedFx where
  amountUSD : Option ℚ
  amountTHB : Option ℚ
  priceUSD : Option ℚ
  priceTHB : Option ℚ
  fxRateUsed : Option ℚ
  deriving Repr, DecidableEq

/-- A JS pattern of the source, `if (rate) x = a * rate` — the
assignment only happens when the rate is present and truthy. -/
def mulIfTruthy (a : ℚ) : Option ℚ → Option ℚ
  | some r => if r = 0 then none else some (a * r)
  | none => none

/-- The pattern `if (usdThbRate) x = a / usdThbRate` of the THB
branches. -/
def divIfTruthy (a : ℚ) : Option ℚ → Option ℚ
  | some r => if r = 0 then none else some (a / r)
  | none => none

/-- JS `Number(x.toFixed(4))`, idealized as decimal rounding to four
places on exact rationals. -/
def toFixed4 (x : ℚ) : ℚ := ((round (x * 10000) : ℤ) : ℚ) / 10000

/-- The response projection `x ? Number(x.toFixed(4)) : null`
(lines 492-495): a numeric value of exactly `0` is falsy and becomes
`null`. -/
def finishNum : Option ℚ → Option ℚ
  | some v => if v = 0 then none else some (toFixed4 v)
  | none => none

/-- The amount/price conversion block of `enrichCurrency`
(lines 460-488), producing the raw `(USD, THB)` pair for one value
before the final truthiness-and-rounding projection. -/
def convertPair (usdThb : Option ℚ) (rates : ConvRates)
    (src : Option Str) (v : Option ℚ) : Option ℚ × Option ℚ :=
  match v with
  | none => (none, none)
  | some a =>
    if src = some sUSD then (some a, mulIfTruthy a usdThb)
    else if src = some sTHB then (divIfTruthy a usdThb, some a)
    else (mulIfTruthy a rates.toUsd, mulIfTruthy a rates.toThb)

/-- The per-event body of the `events.map` in `enrichCurrency`
(lines 451-499): look up the conversion-matrix slot
(`conversionMatrix.get(sourceCurrency) || {}`), convert the amount and
the at-event price, project through truthiness and `toFixed(4)`, and
report the rate used (`sourceCurrency === 'USD' ? usdThbRate :
(rates.toThb || null)`). -/
def enrichEvent (usdThb : Option ℚ) (matrix : Str → Option ConvRates)
    (e : RawEvent) : EnrichedFx :=
  let rates := (match e.currency with
    | some s => matrix s
    | none => none).getD ⟨none, none⟩
  let amounts := convertPair usdThb rates e.currency e.amountPerShare
  let prices := convertPair usdThb rates e.currency e.priceAtEvent
  { amountUSD := finishNum amounts.1
    amountTHB := finishNum amounts.2
    priceUSD := finishNum prices.1
    priceTHB := finishNum prices.2
    fxRateUsed :=
      if e.currency = some sUSD then usdThb
      else match rates.toThb with
        | some r => if r = 0 then none else some r
        | none => none }

/-! ## Section 10: dividend range-coverage metadata (lines 835-860) -/

/-- JS `Number(x.toFixed(3))`, idealized as decimal rounding to three
places on exact rationals. -/
def toFixed3 (x : ℚ) : ℚ := ((round (x * 1000) : ℤ) : ℚ) / 1000

/-- The `actualRangeDays` computation (lines 849-855): inclusive day
count between the earliest and the latest in-range event (epoch-ms
midnights), `0` when either end is absent. -/
def actualRangeDays (actualStart actualEnd : Option ℕ) : ℕ :=
  match actualStart, actualEnd with
  | some s, some e => (e - s) / MS_PER_DAY + 1
  | _, _ => 0

/-- The `requestedRangeDays` computation (line 856):
`Math.floor((period2 - period1) / MS_PER_DAY) + 1` (the range builder
guarantees `period1 ≤ period2`). -/
def requestedRangeDays (period1 period2 : ℕ) : ℕ :=
  (period2 - period1) / MS_PER_DAY + 1

/-- The `coverageRatio` computation (lines 857-860): when both spans
are non-empty, the actual/requested day ratio clamped by `Math.min` to
`1` and rounded via `toFixed(3)`; otherwise `0`. -/
def coverageRatio (reqDays actDays : ℕ) : ℚ :=
  if 0 < reqDays ∧ 0 < actDays then
    toFixed3 (min ((actDays : ℚ) / (reqDays : ℚ)) 1)
  else 0

/-! ## Section 11: concrete fixtures for witnesses and counterexamples -/

/-- The string `"PTT"`. -/
def sPTT : Str := "PTT".data

/-- The string `"PTT.BK"`. -/
def sPTTBK : Str := "PTT.BK".data

/-- A raw ticker input carrying a market qualifier, `" ptt.bk "`. -/
def sRawDotted : Str := " ptt.bk ".data

/-- A raw ticker input without a market qualifier, `" ptt "`. -/
def sRawPlain : Str := " ptt ".data

/-- A success pattern in which every provider attempt fails. -/
def allFail : Str → Provider → Bool := fun _ _ => false

/-- The string `"GBP"`. -/
def sGBP : Str := "GBP".data

/-- The string `"fx_GBPTHB"` — the direct pair key the cross-rate
composition writes. -/
def sFxGBPTHB : Str := "fx_GBPTHB".data

/-- An FX upstream in which the library always throws and the direct
fallback always fails. -/
def fxNoUpstream : FxUpstream := ⟨fun _ => none, fun _ => none⟩

/-- An FX upstream quoting `GBP=X` at `0.8` (1 USD = 0.8 GBP) and
`THB=X` at `35` (1 USD = 35 THB). -/
def fxDemo : FxUpstream :=
  ⟨fun p =>
    if p = sGBP ++ sEqX then some (some (4 / 5))
    else if p = sTHB ++ sEqX then some (some 35)
    else none,
   fun _ => none⟩

/-- A cache holding only a fresh composed cross rate for the ordered
pair `GBP → THB` under its direct pair key. -/
def crossCache : CacheMap ℚ := cacheSet 5000 (CacheMap.empty ℚ) sFxGBPTHB (175 / 4)

/-- The cache after the witness scenario's first USD leg. -/
def c1fix : CacheMap ℚ :=
  cacheSet 1 (CacheMap.empty ℚ) (sFxPrefix ++ (sGBP ++ sEqX)) (4 / 5)

/-- The cache after the witness scenario's second USD leg. -/
def c2fix : CacheMap ℚ :=
  cacheSet 1 c1fix (sFxPrefix ++ (sTHB ++ sEqX)) 35

/-- A conversion matrix giving every currency both USD and THB legs. -/
def demoMatrix : Str → Option ConvRates := fun _ => some ⟨some 1, some 35⟩

/-- A processed dividend event whose per-share amount and at-event
price are both exactly `0`. -/
def evZero : RawEvent := ⟨some sUSD, some 0, some 0⟩

end StockCalc

/-! # Theorems -/

namespace StockCalc

/-- Claim C1 (counterexample).  The claim states that a detected
rate-limit signature trips the shared circuit breaker and aborts the
remaining candidate chain.  On the code it does neither: with the
rate-limit signature on the first candidate, the dividend chain still
attempts the second candidate (which succeeds, `attempts = 2`) and the
breaker stays in its initial, non-blocked state. -/
theorem dividendChain_rateLimit_counterexample :
    dividendChain BreakerState.init LastError.noneYet
        [DividendOutcome.rateLimitHtml, DividendOutcome.success (42 : ℕ)] =
      ⟨some 42, BreakerState.init, LastError.rateLimited, 2⟩ ∧
    BreakerState.init.isBlocked = false := by
  exact ⟨rfl, rfl⟩

/-- Claim C1 (amended).  A rate-limit signature only sets
`lastError` to the rate-limited class and the chain continues with the
remaining candidates (one more attempt is recorded); the circuit
breaker is never mutated by the dividend chain, whatever the
outcomes. -/
theorem dividendChain_rateLimit_continues {P : Type}
    (b : BreakerState) (err : LastError) (rest : List (DividendOutcome P)) :
    (dividendChain b err (DividendOutcome.rateLimitHtml :: rest)).payload =
      (dividendChain b LastError.rateLimited rest).payload ∧
    (dividendChain b err (DividendOutcome.rateLimitHtml :: rest)).lastError =
      (dividendChain b LastError.rateLimited rest).lastError ∧
    (dividendChain b err (DividendOutcome.rateLimitHtml :: rest)).attempts =
      (dividendChain b LastError.rateLimited rest).attempts + 1 ∧
    ∀ os : List (DividendOutcome P), (dividendChain b err os).breaker = b := by
  refine ⟨rfl, rfl, rfl, ?_⟩
  intro os
  induction os generalizing err with
  | nil => rfl
  | cons o rest ih => cases o <;> simp [dividendChain, ih]

/-- Claim C2 (counterexample).  The claim states the candidate order
`(V1, primary), (V2, primary), (V1, secondary), (V2, secondary)`.  On
the code, with both variants of `PTT` failing everywhere, the actual
attempt order interleaves providers per variant, which differs from
the claimed order. -/
theorem quoteAttempts_order_counterexample :
    quoteAttempts allFail [sPTT, sPTTBK] =
      [(sPTT, Provider.yahoo), (sPTT, Provider.twelveData),
       (sPTTBK, Provider.yahoo), (sPTTBK, Provider.twelveData)] ∧
    [(sPTT, Provider.yahoo), (sPTT, Provider.twelveData),
     (sPTTBK, Provider.yahoo), (sPTTBK, Provider.twelveData)] ≠
      [(sPTT, Provider.yahoo), (sPTTBK, Provider.yahoo),
       (sPTT, Provider.twelveData), (sPTTBK, Provider.twelveData)] := by
  exact ⟨rfl, by decide⟩

/-- Claim C2 (amended).  For every failure pattern in which all
attempts fail, the quote chain attempts, per variant in order, Yahoo
then Twelve Data before moving to the next variant, and the history
chain attempts Yahoo, then the Yahoo direct fetch, then Twelve Data,
per variant in order: providers interleave within each variant rather
than the primary scanning all variants first. -/
theorem providerAttempts_interleave_per_variant
    (f : Str → Provider → Bool) (hf : ∀ s p, f s p = false)
    (variants : List Str) :
    quoteAttempts f variants =
      variants.flatMap
        (fun s => [(s, Provider.yahoo), (s, Provider.twelveData)]) ∧
    historyAttempts f variants =
      variants.flatMap
        (fun s => [(s, Provider.yahoo), (s, Provider.yahooDirect),
                   (s, Provider.twelveData)]) := by
  constructor
  · induction variants with
    | nil => rfl
    | cons s rest ih => simp [quoteAttempts, hf, ih]
  · induction variants with
    | nil => rfl
    | cons s rest ih => simp [historyAttempts, hf, ih]

/-- Witness for the amended claim C2 at the concrete `PTT` variant
pair with every attempt failing. -/
theorem providerAttempts_interleave_per_variant_witness :
    quoteAttempts allFail [sPTT, sPTTBK] =
      [sPTT, sPTTBK].flatMap
        (fun s => [(s, Provider.yahoo), (s, Provider.twelveData)]) ∧
    historyAttempts allFail [sPTT, sPTTBK] =
      [sPTT, sPTTBK].flatMap
        (fun s => [(s, Provider.yahoo), (s, Provider.yahooDirect),
                   (s, Provider.twelveData)]) :=
  providerAttempts_interleave_per_variant allFail (fun _ _ => rfl)
    [sPTT, sPTTBK]

/-- Claim C5 (counterexample).  The claim states a strictly decreasing
remaining-seconds value across successive blocked checks.  After a
trip at time 0 (cool-down 1000 ms), the checks at 100 ms and at 200 ms
both report 1 remaining second — the value did not strictly
decrease. -/
theorem breakerCheck_remaining_not_strict_counterexample :
    (breakerCheck 100 (breakerTrip 0 BreakerState.init)).1 = some 1 ∧
    (breakerCheck 200 (breakerTrip 0 BreakerState.init)).1 = some 1 := by
  decide

/-- Claim C5 (amended).  After `trip()` at `t0`, every check before
`t0 + BLOCK_DURATION` blocks, reporting
`Math.ceil` of the remaining milliseconds over 1000 — a value that is
non-increasing (weakly decreasing) across successive checks — and the
first check at or after the deadline does not block and resets the
breaker to the not-tripped state. -/
theorem breakerCheck_blocks_until_cooldown (t0 : ℕ) (s : BreakerState) :
    (∀ n, n < t0 + BLOCK_DURATION →
      breakerCheck n (breakerTrip t0 s) =
        (some (ceilDiv1000 (t0 + BLOCK_DURATION - n)), breakerTrip t0 s)) ∧
    (∀ n1 n2, n1 ≤ n2 →
      ceilDiv1000 (t0 + BLOCK_DURATION - n2) ≤
        ceilDiv1000 (t0 + BLOCK_DURATION - n1)) ∧
    (∀ n, t0 + BLOCK_DURATION ≤ n →
      breakerCheck n (breakerTrip t0 s) = (none, BreakerState.init)) := by
  refine ⟨?_, ?_, ?_⟩
  · intro n hn
    simp [breakerCheck, breakerTrip, hn]
  · intro n1 n2 h
    apply Nat.div_le_div_right
    omega
  · intro n hn
    simp [breakerCheck, breakerTrip, BreakerState.init]
    omega

/-- Witness for the amended claim C5: trip at 0, blocked check at
100 ms, weakly decreasing remaining seconds between 100 ms and 200 ms,
reset at 1000 ms. -/
theorem breakerCheck_blocks_until_cooldown_witness :
    breakerCheck 100 (breakerTrip 0 BreakerState.init) =
      (some (ceilDiv1000 (0 + BLOCK_DURATION - 100)),
       breakerTrip 0 BreakerState.init) ∧
    ceilDiv1000 (0 + BLOCK_DURATION - 200) ≤
      ceilDiv1000 (0 + BLOCK_DURATION - 100) ∧
    breakerCheck 1000 (breakerTrip 0 BreakerState.init) =
      (none, BreakerState.init) :=
  ⟨(breakerCheck_blocks_until_cooldown 0 BreakerState.init).1 100 (by decide),
   (breakerCheck_blocks_until_cooldown 0 BreakerState.init).2.1 100 200
     (by decide),
   (breakerCheck_blocks_until_cooldown 0 BreakerState.init).2.2 1000
     (by decide)⟩

/-- Claim C6 (confirmed).  The resolver trims and uppercases the raw
input; when the result contains the `.` market-qualifier delimiter the
variant sequence is exactly the normalized symbol alone, and otherwise
it is exactly the normalized symbol followed by its `.BK`-suffixed
alternate, in that order. -/
theorem buildTickerVariants_sequence (raw : Str) :
    ((normalizeTicker raw).contains '.' = true →
      buildTickerVariants raw = [normalizeTicker raw]) ∧
    ((normalizeTicker raw).contains '.' = false →
      buildTickerVariants raw =
        [normalizeTicker raw, normalizeTicker raw ++ sBK]) := by
  unfold buildTickerVariants
  constructor <;> intro h <;> simp [h] <;> simpa using h

/-- Witness for claim C6 at the dotted input `" ptt.bk "` and the bare
input `" ptt "`. -/
theorem buildTickerVariants_sequence_witness :
    buildTickerVariants sRawDotted = [normalizeTicker sRawDotted] ∧
    buildTickerVariants sRawPlain =
      [normalizeTicker sRawPlain, normalizeTicker sRawPlain ++ sBK] :=
  ⟨(buildTickerVariants_sequence sRawDotted).1 (by decide),
   (buildTickerVariants_sequence sRawPlain).2 (by decide)⟩

/-- Helper: the history points of the Yahoo direct-fetch path carry
their epoch timestamps (scaled to ms) in the upstream order — the
date projection of the output is a sublist of the scaled input
timestamp list. -/
theorem yahooDirectGo_dates_sublist (closes volumes : List (Option ℚ)) :
    ∀ (ts : List ℕ) (i : ℕ),
      ((yahooDirectGo closes volumes ts i).map DirectPoint.dateMs).Sublist
        (ts.map (· * 1000)) := by
  intro ts
  induction ts with
  | nil => intro i; simp [yahooDirectGo]
  | cons t rest ih =>
    intro i
    simp only [yahooDirectGo, List.map]
    cases h : (closes.get? i).bind id with
    | none => exact List.Sublist.cons _ (ih (i + 1))
    | some c =>
      by_cases hc : c = 0
      · simp only [hc, if_pos rfl]
        exact List.Sublist.cons _ (ih (i + 1))
      · simp only [if_neg hc, List.map]
        exact List.Sublist.cons₂ _ (ih (i + 1))

/-- Claim C3 (counterexample).  The claim states that every normalized
series is sorted ascending by date with no duplicate day-granularity
dates.  The Yahoo direct-fetch path performs no sort and no
deduplication: on a raw payload with timestamps (in seconds)
`[86400, 0, 10]` and closes `[5, 6, 7]`, the produced series has
day-granularity dates `[1, 0, 0]` — neither sorted ascending nor free
of duplicate days. -/
theorem yahooDirectHistory_unsorted_counterexample :
    (yahooDirectHistory
        ⟨[86400, 0, 10], [some 5, some 6, some 7], [none, none, none]⟩).map
        (fun p => msToDay p.dateMs) = [1, 0, 0] ∧
    ¬ List.Sorted (fun a b : ℕ => a ≤ b) [1, 0, 0] ∧
    ¬ List.Nodup [1, 0, 0] := by
  refine ⟨?_, by decide, by decide⟩
  simp [yahooDirectHistory, yahooDirectGo, msToDay, MS_PER_DAY]

/-- Claim C3 (amended).  The Yahoo-library path (`parseQuoteSeries`)
and the Twelve Data path sort their series ascending by
(day-granularity, resp. datetime) date but do not deduplicate equal
dates; the Yahoo direct-fetch path keeps the upstream timestamp order
untouched (its date projection is a sublist of the scaled upstream
timestamps). -/
theorem historySeries_sorted_where_sorted :
    (∀ rows, List.Sorted (fun a b : SeriesPoint => a.day ≤ b.day)
      (parseQuoteSeries rows)) ∧
    (∀ values, List.Sorted (fun a b : TDPoint => a.dateMs ≤ b.dateMs)
      (twelveDataHistory values)) ∧
    (∀ r : YahooDirectRaw,
      ((yahooDirectHistory r).map DirectPoint.dateMs).Sublist
        (r.timestamps.map (· * 1000))) := by
  refine ⟨?_, ?_, ?_⟩
  · intro rows
    haveI : IsTotal SeriesPoint (fun a b => a.day ≤ b.day) :=
      ⟨fun a b => Nat.le_total a.day b.day⟩
    haveI : IsTrans SeriesPoint (fun a b => a.day ≤ b.day) :=
      ⟨fun _ _ _ h1 h2 => Nat.le_trans h1 h2⟩
    exact List.sorted_insertionSort _ _
  · intro values
    haveI : IsTotal TDPoint (fun a b => a.dateMs ≤ b.dateMs) :=
      ⟨fun a b => Nat.le_total a.dateMs b.dateMs⟩
    haveI : IsTrans TDPoint (fun a b => a.dateMs ≤ b.dateMs) :=
      ⟨fun _ _ _ h1 h2 => Nat.le_trans h1 h2⟩
    exact List.sorted_insertionSort _ _
  · intro r
    exact yahooDirectGo_dates_sublist r.closes r.volumes r.timestamps 0

/-- Claim C7 (confirmed).  With a set performed at a positive time (JS
`Date.now()` is positive) and a get at or after it: while the age is
below the TTL of the key's class, the get returns the stored value
unchanged; once the age reaches the TTL, the get returns absent and
removes the entry, and a subsequent set for the key succeeds (the
entry is written with the new value and timestamp). -/
theorem cacheGet_after_set {α : Type} (c : CacheMap α) (k : Str) (v : α)
    (tset tget : ℕ) (hpos : 0 < tset) (hord : tset ≤ tget) :
    (tget - tset < ttlFor k →
      (cacheGet tget (cacheSet tset c k v) k).1 = some v) ∧
    (ttlFor k ≤ tget - tset →
      (cacheGet tget (cacheSet tset c k v) k).1 = none ∧
      (cacheGet tget (cacheSet tset c k v) k).2 k = none ∧
      ∀ (t2 : ℕ) (v2 : α),
        cacheSet t2 (cacheGet tget (cacheSet tset c k v) k).2 k v2 k =
          some ⟨v2, t2⟩) := by
  constructor
  · intro h
    have hts : tset ≠ 0 := by omega
    have hg : ((tget : ℤ) - (tset : ℤ)) < (ttlFor k : ℤ) := by
      omega
    simp [cacheGet, cacheSet, hts, hg]
  · intro h
    have hg : ¬ ((tget : ℤ) - (tset : ℤ) < (ttlFor k : ℤ)) := by
      omega
    refine ⟨?_, ?_, ?_⟩
    · simp [cacheGet, cacheSet, hg]
    · simp [cacheGet, cacheSet, cacheDelete, hg]
    · intro t2 v2
      simp [cacheGet, cacheSet, cacheDelete, hg]

/-- Witness for claim C7 with key `PTT` (long TTL class): a fresh hit
one tick after the set, and an expired miss one full TTL later. -/
theorem cacheGet_after_set_witness :
    (cacheGet 2 (cacheSet 1 (CacheMap.empty ℕ) sPTT 7) sPTT).1 = some 7 ∧
    (cacheGet (1 + CACHE_TTL) (cacheSet 1 (CacheMap.empty ℕ) sPTT 7)
      sPTT).1 = none :=
  ⟨(cacheGet_after_set (CacheMap.empty ℕ) sPTT 7 1 2 (by decide)
      (by decide)).1 (by decide),
   ((cacheGet_after_set (CacheMap.empty ℕ) sPTT 7 1 (1 + CACHE_TTL)
      (by decide) (by decide)).2 (by decide)).1⟩

/-- Helper: decimal rounding to three places maps `[0, 1]` into
itself. -/
theorem toFixed3_mem_unit {x : ℚ} (h0 : 0 ≤ x) (h1 : x ≤ 1) :
    0 ≤ toFixed3 x ∧ toFixed3 x ≤ 1 := by
  have hl : (0 : ℤ) ≤ round (x * 1000) := by
    rw [round_eq]
    exact Int.floor_nonneg.mpr (by linarith)
  have hu : round (x * 1000) ≤ 1000 := by
    rw [round_eq]
    calc ⌊x * 1000 + 1 / 2⌋ ≤ ⌊(1000 : ℚ) + 1 / 2⌋ :=
          Int.floor_le_floor (by linarith)
      _ = 1000 := by norm_num
  unfold toFixed3
  constructor
  · apply div_nonneg _ (by norm_num)
    exact_mod_cast hl
  · rw [div_le_one (by norm_num)]
    exact_mod_cast hu

/-- Claim C8 (confirmed).  For every requested period and every pair
of optional actual-range endpoints, the reported coverage ratio — the
actual/requested inclusive-day-count ratio clamped to at most 1 — lies
within `[0, 1]`, and it is `0` whenever the actual span is empty
(either endpoint absent). -/
theorem coverageRatio_in_unit_interval (p1 p2 : ℕ) (s e : Option ℕ) :
    (0 ≤ coverageRatio (requestedRangeDays p1 p2) (actualRangeDays s e) ∧
     coverageRatio (requestedRangeDays p1 p2) (actualRangeDays s e) ≤ 1) ∧
    coverageRatio (requestedRangeDays p1 p2) (actualRangeDays none e) = 0 ∧
    coverageRatio (requestedRangeDays p1 p2) (actualRangeDays s none) = 0 := by
  refine ⟨?_, ?_, ?_⟩
  · unfold coverageRatio
    split
    case isTrue h =>
      apply toFixed3_mem_unit
      · exact le_min (by positivity) zero_le_one
      · exact min_le_right _ _
    case isFalse h => norm_num
  · have h0 : actualRangeDays none e = 0 := by cases e <;> rfl
    simp [coverageRatio, h0]
  · have h0 : actualRangeDays s none = 0 := by cases s <;> rfl
    simp [coverageRatio, h0]

/-- Helper: the empty cache satisfies the positivity invariant. -/
theorem cachePos_empty : CachePos (CacheMap.empty ℚ) := by
  intro k e h
  simp [CacheMap.empty] at h

/-- Helper: writing a positive value preserves the positivity
invariant. -/
theorem cachePos_set {c : CacheMap ℚ} (hc : CachePos c) (now : ℕ)
    {key : Str} {v : ℚ} (hv : 0 < v) :
    CachePos (cacheSet now c key v) := by
  intro k e h
  by_cases hk : k = key
  · simp [cacheSet, hk] at h
    simpa [← h] using hv
  · simp [cacheSet, hk] at h
    exact hc k e h

/-- Helper: deleting a key preserves the positivity invariant. -/
theorem cachePos_delete {c : CacheMap ℚ} (hc : CachePos c) (key : Str) :
    CachePos (cacheDelete c key) := by
  intro k e h
  by_cases hk : k = key
  · simp [cacheDelete, hk] at h
  · simp [cacheDelete, hk] at h
    exact hc k e h

/-- Helper: under the positivity invariant, a cache hit is positive
and the updated cache keeps the invariant. -/
theorem cacheGet_pos {c : CacheMap ℚ} (hc : CachePos c) (now : ℕ)
    (key : Str) :
    (∀ v, (cacheGet now c key).1 = some v → 0 < v) ∧
    CachePos (cacheGet now c key).2 := by
  unfold cacheGet
  cases h : c key with
  | none => exact ⟨fun v hv => by simp at hv, hc⟩
  | some e =>
    dsimp only
    split
    case isTrue hcond =>
      refine ⟨fun v hv => ?_, hc⟩
      obtain rfl : e.data = v := by simpa using hv
      exact hc key e h
    case isFalse hcond =>
      exact ⟨fun v hv => by simp at hv, cachePos_delete hc key⟩

/-- Helper: under the positivity invariant, `fetchForexRate` yields
absent or a strictly positive rate, and every value it writes to the
cache is strictly positive. -/
theorem fetchForexRate_pos (now : ℕ) (u : FxUpstream) {c : CacheMap ℚ}
    (hc : CachePos c) (pair : Str) :
    (∀ v, (fetchForexRate now u c pair).1 = some v → 0 < v) ∧
    CachePos (fetchForexRate now u c pair).2 := by
  obtain ⟨hval, hkeep⟩ := cacheGet_pos hc now (sFxPrefix ++ pair)
  unfold fetchForexRate
  cases hg : cacheGet now c (sFxPrefix ++ pair) with
  | mk o c1 =>
    rw [hg] at hval hkeep
    cases o with
    | some v =>
      dsimp only
      refine ⟨fun w hw => ?_, hkeep⟩
      obtain rfl : v = w := by simpa using hw
      exact hval v rfl
    | none =>
      dsimp only
      cases u.yahooQuote pair with
      | some po =>
        cases po with
        | some p =>
          dsimp only
          split
          case isTrue hp =>
            refine ⟨fun w hw => ?_, cachePos_set hkeep now hp⟩
            obtain rfl : p = w := by simpa using hw
            exact hp
          case isFalse hp => exact ⟨fun w hw => by simp at hw, hkeep⟩
        | none => exact ⟨fun w hw => by simp at hw, hkeep⟩
      | none =>
        dsimp only
        cases u.direct pair with
        | some p =>
          dsimp only
          split
          case isTrue hp =>
            refine ⟨fun w hw => ?_, cachePos_set hkeep now hp⟩
            obtain rfl : p = w := by simpa using hw
            exact hp
          case isFalse hp => exact ⟨fun w hw => by simp at hw, hkeep⟩
        | none => exact ⟨fun w hw => by simp at hw, hkeep⟩

/-- Helper: the reciprocal step preserves positivity of the value and
of the cache. -/
theorem fxReciprocal_pos {p : Option ℚ × CacheMap ℚ}
    (hp : ∀ v, p.1 = some v → 0 < v) (hc : CachePos p.2) :
    (∀ v, (fxReciprocal p).1 = some v → 0 < v) ∧
    CachePos (fxReciprocal p).2 := by
  obtain ⟨o, c⟩ := p
  cases o with
  | none => exact ⟨fun v hv => by simp [fxReciprocal] at hv, hc⟩
  | some r =>
    have hr : 0 < r := hp r rfl
    refine ⟨fun v hv => ?_, hc⟩
    simp [fxReciprocal, hr.ne'] at hv
    rw [← hv]
    positivity

/-- Helper: under the positivity invariant, every rate `getFxRate`
returns is strictly positive and the cache invariant is preserved. -/
theorem getFxRate_pos (now : ℕ) (u : FxUpstream) {c : CacheMap ℚ}
    (hc : CachePos c) (frC toC : Str) :
    (∀ v, (getFxRate now u c frC toC).1 = some v → 0 < v) ∧
    CachePos (getFxRate now u c frC toC).2 := by
  unfold getFxRate
  split
  · exact ⟨fun v hv => by simp at hv, hc⟩
  split
  · refine ⟨fun v hv => ?_, hc⟩
    obtain rfl : (1 : ℚ) = v := by simpa using hv
    exact one_pos
  split
  · exact fetchForexRate_pos now u hc (toC ++ sEqX)
  split
  · exact fxReciprocal_pos (fetchForexRate_pos now u hc (frC ++ sEqX)).1
      (fetchForexRate_pos now u hc (frC ++ sEqX)).2
  · have hleg1 := fxReciprocal_pos (fetchForexRate_pos now u hc (frC ++ sEqX)).1
      (fetchForexRate_pos now u hc (frC ++ sEqX)).2
    have hleg2 := fetchForexRate_pos now u hleg1.2 (toC ++ sEqX)
    dsimp only
    cases h1 : (fxReciprocal (fetchForexRate now u c (frC ++ sEqX))).1 with
    | none =>
      cases h2 : (fetchForexRate now u
          (fxReciprocal (fetchForexRate now u c (frC ++ sEqX))).2
          (toC ++ sEqX)).1 with
      | none => exact ⟨fun v hv => by simp [h1, h2] at hv,
          by simpa [h1, h2] using hleg2.2⟩
      | some b => exact ⟨fun v hv => by simp [h1, h2] at hv,
          by simpa [h1, h2] using hleg2.2⟩
    | some a =>
      cases h2 : (fetchForexRate now u
          (fxReciprocal (fetchForexRate now u c (frC ++ sEqX))).2
          (toC ++ sEqX)).1 with
      | none => exact ⟨fun v hv => by simp [h1, h2] at hv,
          by simpa [h1, h2] using hleg2.2⟩
      | some b =>
        have ha : 0 < a := hleg1.1 a h1
        have hb : 0 < b := hleg2.1 b h2
        refine ⟨fun v hv => ?_, ?_⟩
        · simp [h1, h2, ha.ne', hb.ne'] at hv
          rw [← hv]
          positivity
        · simp only [h1, h2]
          rw [if_pos ⟨ha.ne', hb.ne'⟩]
          exact cachePos_set hleg2.2 now (by positivity)

/-- Claim C9 (confirmed).  Under the invariant that every cached FX
value is strictly positive (which the empty cache satisfies and every
write maintains), `fetchForexRate` returns absent or a finite rate
strictly greater than 0 and preserves the invariant, and every rate
`getFxRate` returns — in particular the reciprocal `1 / rate` of the
non-USD-to-USD case — is strictly positive, so the guarded reciprocal
never divides by zero. -/
theorem fetchForexRate_positive (now : ℕ) (u : FxUpstream)
    (c : CacheMap ℚ) (hc : CachePos c) (pair frC toC : Str) :
    (∀ v, (fetchForexRate now u c pair).1 = some v → 0 < v) ∧
    CachePos (fetchForexRate now u c pair).2 ∧
    (∀ v, (getFxRate now u c frC toC).1 = some v → 0 < v) ∧
    CachePos (getFxRate now u c frC toC).2 :=
  ⟨(fetchForexRate_pos now u hc pair).1,
   (fetchForexRate_pos now u hc pair).2,
   (getFxRate_pos now u hc frC toC).1,
   (getFxRate_pos now u hc frC toC).2⟩

/-- Witness for claim C9: the invariant hypothesis is satisfiable (the
empty cache) and the theorem applies to the concrete no-upstream
scenario, whose resulting caches therefore keep the invariant. -/
theorem fetchForexRate_positive_witness :
    CachePos (fetchForexRate 0 fxNoUpstream (CacheMap.empty ℚ) sPTT).2 ∧
    CachePos (getFxRate 0 fxNoUpstream (CacheMap.empty ℚ) sGBP sUSD).2 :=
  ⟨(fetchForexRate_positive 0 fxNoUpstream (CacheMap.empty ℚ) cachePos_empty
      sPTT sGBP sUSD).2.1,
   (fetchForexRate_positive 0 fxNoUpstream (CacheMap.empty ℚ) cachePos_empty
      sPTT sGBP sUSD).2.2.2⟩

/-- Claim C4 (counterexample).  The claim states that a future
`rate(from, to)` lookup for a composed pair is served from the cached
direct-pair entry without recomputing the two hops.  On the code the
composed entry is never read back: with a cache holding only a fresh
`fx_GBPTHB` entry of `43.75` (stored and queried at the same instant,
so well inside the 15-minute FX TTL) and no upstream available,
`getFxRate(GBP, THB)` returns absent instead of the cached `43.75` —
it recomputes the two hops and ignores the direct-pair entry. -/
theorem getFxRate_ignores_cross_cache_counterexample :
    crossCache sFxGBPTHB = some ⟨175 / 4, 5000⟩ ∧
    ((5000 : ℤ) - (5000 : ℤ) < (ttlFor sFxGBPTHB : ℤ)) ∧
    (getFxRate 5000 fxNoUpstream crossCache sGBP sTHB).1 = none := by
  refine ⟨?_, by decide, ?_⟩
  · simp [crossCache, cacheSet]
  · simp [getFxRate, fetchForexRate, fxReciprocal, cacheGet, crossCache,
      cacheSet, CacheMap.empty, fxNoUpstream, sGBP, sTHB, sUSD, sEqX,
      sFxPrefix, sFxGBPTHB]

/-- Claim C4 (amended).  For two non-USD currencies whose USD-hub legs
both resolve, the composed rate equals `rate(from, USD) ×
rate(USD, to)` and the product is written to the cache under the
direct ordered-pair key; however that entry is write-only — future
lookups for the pair recompute the two hops (see the counterexample)
rather than reading it. -/
theorem getFxRate_cross_composes_and_caches
    (now : ℕ) (u : FxUpstream) (c : CacheMap ℚ) (hc : CachePos c)
    (frC toC : Str) (hfr0 : frC ≠ []) (hto0 : toC ≠ [])
    (hfrU : frC ≠ sUSD) (htoU : toC ≠ sUSD) (hne : frC ≠ toC)
    (a b : ℚ) (c1 c2 : CacheMap ℚ)
    (h1 : getFxRate now u c frC sUSD = (some a, c1))
    (h2 : getFxRate now u c1 sUSD toC = (some b, c2)) :
    getFxRate now u c frC toC =
      (some (a * b), cacheSet now c2 (sFxPrefix ++ (frC ++ toC)) (a * b)) ∧
    cacheSet now c2 (sFxPrefix ++ (frC ++ toC)) (a * b)
      (sFxPrefix ++ (frC ++ toC)) = some ⟨a * b, now⟩ := by
  have hU0 : sUSD ≠ ([] : Str) := by decide
  have hUto : sUSD ≠ toC := fun h => htoU h.symm
  have ha : 0 < a := (getFxRate_pos now u hc frC sUSD).1 a (by rw [h1])
  have hc1 : CachePos c1 := by
    have := (getFxRate_pos now u hc frC sUSD).2
    rwa [h1] at this
  have hb : 0 < b := (getFxRate_pos now u hc1 sUSD toC).1 b (by rw [h2])
  have e1 : fxReciprocal (fetchForexRate now u c (frC ++ sEqX)) =
      (some a, c1) := by
    simpa [getFxRate, hfr0, hU0, hfrU] using h1
  have e2 : fetchForexRate now u c1 (toC ++ sEqX) = (some b, c2) := by
    simpa [getFxRate, hU0, hto0, hUto] using h2
  constructor
  · simp [getFxRate, hfr0, hto0, hfrU, htoU, hne, e1, e2, ha.ne', hb.ne']
  · simp [cacheSet]

/-- Witness for the amended claim C4: with the demo upstream quoting
`GBP=X` at `0.8` and `THB=X` at `35` and an empty cache, the USD legs
resolve to `1.25` and `35`, and the composed `GBP → THB` rate is their
product, written under the `fx_GBPTHB`-shaped key. -/
theorem getFxRate_cross_composes_and_caches_witness :
    getFxRate 1 fxDemo (CacheMap.empty ℚ) sGBP sTHB =
      (some ((5 / 4 : ℚ) * 35),
       cacheSet 1 c2fix (sFxPrefix ++ (sGBP ++ sTHB)) ((5 / 4 : ℚ) * 35)) ∧
    cacheSet 1 c2fix (sFxPrefix ++ (sGBP ++ sTHB)) ((5 / 4 : ℚ) * 35)
      (sFxPrefix ++ (sGBP ++ sTHB)) = some ⟨(5 / 4 : ℚ) * 35, 1⟩ := by
  have h1 : getFxRate 1 fxDemo (CacheMap.empty ℚ) sGBP sUSD =
      (some (5 / 4 : ℚ), c1fix) := by
    simp [getFxRate, fetchForexRate, fxReciprocal, cacheGet, CacheMap.empty,
      fxDemo, c1fix, sGBP, sTHB, sUSD, sEqX, sFxPrefix]
  have h2 : getFxRate 1 fxDemo c1fix sUSD sTHB = (some (35 : ℚ), c2fix) := by
    simp [getFxRate, fetchForexRate, fxReciprocal, cacheGet, cacheSet,
      CacheMap.empty, fxDemo, c1fix, c2fix, sGBP, sTHB, sUSD, sEqX, sFxPrefix]
  exact getFxRate_cross_composes_and_caches 1 fxDemo (CacheMap.empty ℚ)
    cachePos_empty sGBP sTHB (by decide) (by decide) (by decide) (by decide)
    (by decide) (5 / 4) 35 c1fix c2fix h1 h2

/-- Claim C10 (confirmed).  In the currency-enrichment projection, a
per-share amount of exactly `0` (a finite number) yields `null`
converted amounts — the final `x ? x.toFixed(4) : null` projection
treats the numeric `0` as falsy — whatever rates are available; the
same holds for the at-event price. -/
theorem enrichEvent_zero_becomes_null (usdThb : Option ℚ)
    (matrix : Str → Option ConvRates) (e : RawEvent) :
    (e.amountPerShare = some 0 →
      (enrichEvent usdThb matrix e).amountUSD = none ∧
      (enrichEvent usdThb matrix e).amountTHB = none) ∧
    (e.priceAtEvent = some 0 →
      (enrichEvent usdThb matrix e).priceUSD = none ∧
      (enrichEvent usdThb matrix e).priceTHB = none) := by
  have hm : ∀ r : Option ℚ, finishNum (mulIfTruthy 0 r) = none := by
    intro r
    cases r with
    | none => rfl
    | some v =>
      by_cases hv : v = 0 <;> simp [mulIfTruthy, finishNum, hv]
  have hd : ∀ r : Option ℚ, finishNum (divIfTruthy 0 r) = none := by
    intro r
    cases r with
    | none => rfl
    | some v =>
      by_cases hv : v = 0 <;> simp [divIfTruthy, finishNum, hv]
  have hz : finishNum (some (0 : ℚ)) = none := by simp [finishNum]
  have key : ∀ (rates : ConvRates) (src : Option Str),
      finishNum (convertPair usdThb rates src (some 0)).1 = none ∧
      finishNum (convertPair usdThb rates src (some 0)).2 = none := by
    intro rates src
    unfold convertPair
    dsimp only
    by_cases h1 : src = some sUSD
    · simp only [if_pos h1]
      exact ⟨hz, hm usdThb⟩
    · simp only [if_neg h1]
      by_cases h2 : src = some sTHB
      · simp only [if_pos h2]
        exact ⟨hd usdThb, hz⟩
      · simp only [if_neg h2]
        exact ⟨hm rates.toUsd, hm rates.toThb⟩
  constructor
  · intro h
    unfold enrichEvent
    rw [h]
    exact key _ e.currency
  · intro h
    unfold enrichEvent
    rw [h]
    exact key _ e.currency

/-- Witness for claim C10 at a USD event with amount `0` and price
`0`, with all conversion rates available. -/
theorem enrichEvent_zero_becomes_null_witness :
    (enrichEvent (some 35) demoMatrix evZero).amountUSD = none ∧
    (enrichEvent (some 35) demoMatrix evZero).amountTHB = none ∧
    (enrichEvent (some 35) demoMatrix evZero).priceUSD = none ∧
    (enrichEvent (some 35) demoMatrix evZero).priceTHB = none :=
  ⟨((enrichEvent_zero_becomes_null (some 35) demoMatrix evZero).1 rfl).1,
   ((enrichEvent_zero_becomes_null (some 35) demoMatrix evZero).1 rfl).2,
   ((enrichEvent_zero_becomes_null (some 35) demoMatrix evZero).2 rfl).1,
   ((enrichEvent_zero_becomes_null (some 35) demoMatrix evZero).2 rfl).2⟩

end StockCalc
